import Mathlib

/-!
Verification of purefunccore stream and handler combinators.

Shallow embedding of the `purefunccore` Go package (file `purefunccore.go`).

Go readers (`ReadFunc`) and writers (`WriteFunc`) are closures over mutable
state; we embed them as explicit state machines.  A read step receives the
current buffer contents and the closure state and returns the new buffer
contents, the byte count, the returned error, and the new closure state.
A write step receives the buffer and the closure state and returns the byte
count, the error, and the new state (the state lets a model sink record the
bytes it received, making "sink X was invoked" observable).

Go errors relevant to this package are `nil`, `io.EOF`, `io.ErrShortWrite`
and arbitrary other errors; they are embedded as `Option GoError` with
`none` playing the role of `nil`.
-/

namespace PureFuncCore

/-- Bytes are modelled as naturals; a buffer is its list of byte values. -/
abbrev Buf := List Nat

/-- The non-nil Go error values that the package distinguishes:
`io.EOF`, `io.ErrShortWrite`, and any other error (carrying its message). -/
inductive GoError where
  | eof
  | shortWrite
  | msg (s : String)
deriving DecidableEq, Repr

/-- Result of one call to a reader: buffer contents after the call, the
returned count, the returned error (`none` = nil), and the closure state. -/
structure RRead (σ : Type) where
  buf : Buf
  n : Nat
  err : Option GoError
  st : σ
deriving DecidableEq, Repr

/-- A `ReadFunc` closure: one read step over closure state `σ`. -/
abbrev ReadStep (σ : Type) := Buf → σ → RRead σ

/-- Result of one call to a writer: returned count, returned error, state. -/
structure RWrite (σ : Type) where
  n : Nat
  err : Option GoError
  st : σ
deriving DecidableEq, Repr

/-- A `WriteFunc` closure: one write step over closure state `σ`. -/
abbrev WriteStep (σ : Type) := Buf → σ → RWrite σ

/-- Go's `copy(dst, src)`: overwrites the first `min (len src) (len dst)`
entries of `dst` with those of `src`, leaving the rest of `dst` intact. -/
def copyGo (dst src : Buf) : Buf :=
  src.take (min src.length dst.length) ++ dst.drop (min src.length dst.length)

/-- Model of `ReadFunc.Empty`: a reader that immediately returns `(0, io.EOF)`,
leaving the buffer untouched. -/
def ReadFunc.Empty : ReadStep Unit :=
  fun p _ => ⟨p, 0, some .eof, ()⟩

/-- Model of `ReadFunc.Compose(next)`: reads from `f` until it reports `io.EOF`,
then switches permanently to `next`.  The closure state is the `exhausted`
flag together with both wrapped states.  On the call where `f` reports EOF
the flag is set and `next` is invoked on the same buffer, its result being
returned. -/
def ReadFunc.Compose (f : ReadStep α) (next : ReadStep β) :
    ReadStep (Bool × α × β) :=
  fun p s =>
    match s with
    | (exhausted, s1, s2) =>
      if exhausted then
        let r := next p s2
        ⟨r.buf, r.n, r.err, (true, s1, r.st)⟩
      else
        let r := f p s1
        if r.err = some .eof then
          let r2 := next r.buf s2
          ⟨r2.buf, r2.n, r2.err, (true, r.st, r2.st)⟩
        else
          ⟨r.buf, r.n, r.err, (false, r.st, s2)⟩

/-- Model of `ReadFunc.Map(transform)`: after a read returning `n > 0`, applies
`transform` to the first `n` bytes and copies the result back into the
buffer with Go `copy` semantics; count and error are returned unchanged. -/
def ReadFunc.Map (f : ReadStep α) (t : Buf → Buf) : ReadStep α :=
  fun p s =>
    let r := f p s
    if 0 < r.n then
      ⟨copyGo r.buf (t (r.buf.take r.n)), r.n, r.err, r.st⟩
    else r

/-- Model of `ReadFunc.Take(limit)`: closure state is the signed remaining budget
(initially `limit`) plus the wrapped state.  With no budget left it returns
`(0, io.EOF)` without touching the wrapped reader; otherwise it truncates
the buffer to the budget, delegates, and decrements the budget by the
returned count. -/
def ReadFunc.Take (f : ReadStep α) : ReadStep (Int × α) :=
  fun p s =>
    if s.1 ≤ 0 then
      ⟨p, 0, some .eof, s⟩
    else
      let q := if (p.length : Int) > s.1 then p.take s.1.toNat else p
      let r := f q s.2
      ⟨r.buf.take q.length ++ p.drop q.length, r.n, r.err,
        (s.1 - (r.n : Int), r.st)⟩

/-- The loop body of `ReadFunc.Retry`: `fuel` iterations remain; a call
whose error is `nil` or `io.EOF` is returned as is, any other error causes
another iteration with `lastErr` updated; when the fuel runs out the result
is `(0, lastErr)` with the buffer as the last call left it. -/
def retryLoop (f : ReadStep α) : Nat → Option GoError → Buf → α → RRead α
  | 0, lastErr, p, s => ⟨p, 0, lastErr, s⟩
  | fuel + 1, _lastErr, p, s =>
    let r := f p s
    if r.err = none ∨ r.err = some .eof then r
    else retryLoop f fuel r.err r.buf r.st

/-- Model of `ReadFunc.Retry(maxRetries)`: runs the Go loop
`for i := 0; i <= maxRetries; i++`, i.e. at most `maxRetries + 1` calls. -/
def ReadFunc.Retry (f : ReadStep α) (maxRetries : Nat) : ReadStep α :=
  fun p s => retryLoop f (maxRetries + 1) none p s

/-- Model of `WriteFunc.Empty`: accepts and discards everything, reporting full
success. -/
def WriteFunc.Empty : WriteStep Unit :=
  fun p _ => ⟨p.length, none, ()⟩

/-- Model of `WriteFunc.Compose(other)`: calls `f(p)` and then — unconditionally —
`other(p)`; a non-nil error from `f` is surfaced first, then a non-nil
error from `other`, then a short write by `f`; otherwise the result is
`other`'s count with nil error.  This mirrors the Go source, where
`other(p)` is evaluated before any of the checks. -/
def WriteFunc.Compose (f : WriteStep α) (other : WriteStep β) :
    WriteStep (α × β) :=
  fun p s =>
    let r1 := f p s.1
    let r2 := other p s.2
    if r1.err ≠ none then ⟨r1.n, r1.err, (r1.st, r2.st)⟩
    else if r2.err ≠ none then ⟨r2.n, r2.err, (r1.st, r2.st)⟩
    else if r1.n ≠ p.length then ⟨r1.n, some .shortWrite, (r1.st, r2.st)⟩
    else ⟨r2.n, none, (r1.st, r2.st)⟩

/-- The loop inside `WriteFunc.Tee`: writes `p` to each sink in order,
stopping at the first non-nil error (returning it) or the first short
write (returning the count with `io.ErrShortWrite`); if every sink fully
succeeds the result is `(len p, nil)`.  States are threaded positionally:
a sink that is never reached keeps its state. -/
def teeGo : List (WriteStep α) → Buf → List α → RWrite (List α)
  | [], p, ss => ⟨p.length, none, ss⟩
  | w :: ws, p, s :: ss =>
    let r := w p s
    if r.err ≠ none then ⟨r.n, r.err, r.st :: ss⟩
    else if r.n ≠ p.length then ⟨r.n, some .shortWrite, r.st :: ss⟩
    else
      let rest := teeGo ws p ss
      ⟨rest.n, rest.err, r.st :: rest.st⟩
  | _ :: _, p, [] => ⟨p.length, none, []⟩

/-- Model of `WriteFunc.Tee(others...)`: Go builds `all = append([f], others...)`
and runs the fail-fast loop over `all`. -/
def WriteFunc.Tee (f : WriteStep α) (others : List (WriteStep α)) :
    WriteStep (List α) :=
  fun p ss => teeGo (f :: others) p ss

/-- Model of `WriteFunc.Map(transform)`: writes `transform(p)` through `f`; a
non-nil error is returned with `f`'s count, otherwise the reported count is
`len p` — the original length, not the transformed one. -/
def WriteFunc.Map (f : WriteStep α) (t : Buf → Buf) : WriteStep α :=
  fun p s =>
    let r := f (t p) s
    if r.err ≠ none then r else ⟨p.length, none, r.st⟩

/-- Model of `WriteFunc.Filter(predicate)`: writes only the bytes satisfying the
predicate through `f`; a non-nil error is returned with `f`'s count,
otherwise the reported count is the original `len p`. -/
def WriteFunc.Filter (f : WriteStep α) (pred : Nat → Bool) : WriteStep α :=
  fun p s =>
    let r := f (p.filter pred) s
    if r.err ≠ none then r else ⟨p.length, none, r.st⟩

/-- Model of `StringerFunc`: a thunk producing a string. -/
abbrev StringerF := Unit → String

/-- Model of `StringerFunc.Empty`: produces the empty string. -/
def StringerFunc.Empty : StringerF := fun _ => ""

/-- Model of `StringerFunc.Compose(other)`: concatenates the produced strings. -/
def StringerFunc.Compose (f other : StringerF) : StringerF :=
  fun _ => f () ++ other ()

/-- Runs a reader over a list of buffers (one call per buffer), collecting
each call's returned buffer, count and error, and the final state. -/
def runReads (f : ReadStep α) :
    List Buf → α → List (Buf × Nat × Option GoError) × α
  | [], s => ([], s)
  | p :: ps, s =>
    let r := f p s
    let rest := runReads f ps r.st
    ((r.buf, r.n, r.err) :: rest.1, rest.2)

/-- Total byte count over a list of read results. -/
def totalBytes (outs : List (Buf × Nat × Option GoError)) : Nat :=
  (outs.map fun o => o.2.1).sum

/-- The `io.Reader` contract fragment needed by `Take`: the reported count
never exceeds the length of the buffer handed to the reader. -/
def ReadContract (f : ReadStep α) : Prop :=
  ∀ p s, (f p s).n ≤ p.length

/-- A transform is length preserving. -/
def LenPres (t : Buf → Buf) : Prop :=
  ∀ x, (t x).length = x.length

/-- A read error is a failure for `Retry`: neither nil nor `io.EOF`. -/
def IsFailure (e : Option GoError) : Prop :=
  e ≠ none ∧ e ≠ some .eof

instance (e : Option GoError) : Decidable (IsFailure e) := by
  unfold IsFailure; infer_instance

/-- The result of the `k`-th repeated call of reader `f` starting from
buffer `p` and state `s` (calls pass buffer contents and state along, the
way `Retry` re-calls `f(p)` on the same slice). -/
def callAt (f : ReadStep α) : Nat → Buf → α → RRead α
  | 0, p, s => f p s
  | k + 1, p, s => callAt f k (f p s).buf (f p s).st

/-- The first `k` repeated calls of `f` from `(p, s)` all return failure
errors (neither nil nor `io.EOF`). -/
def FailsFirst (f : ReadStep α) : Nat → Buf → α → Prop
  | 0, _, _ => True
  | k + 1, p, s => IsFailure (f p s).err ∧ FailsFirst f k (f p s).buf (f p s).st

/-- Decidability of `FailsFirst`, so concrete witnesses evaluate. -/
def decFailsFirst (f : ReadStep α) :
    (k : Nat) → (p : Buf) → (s : α) → Decidable (FailsFirst f k p s)
  | 0, _, _ => .isTrue trivial
  | k + 1, p, s =>
    haveI := decFailsFirst f k (f p s).buf (f p s).st
    show Decidable (IsFailure (f p s).err ∧ FailsFirst f k (f p s).buf (f p s).st)
      from inferInstance

instance (f : ReadStep α) (k : Nat) (p : Buf) (s : α) :
    Decidable (FailsFirst f k p s) := decFailsFirst f k p s

/-- Instrumentation: wraps a reader so that its state also counts how many
times the underlying reader has been invoked. -/
def counting (f : ReadStep α) : ReadStep (α × Nat) :=
  fun p s =>
    let r := f p s.1
    ⟨r.buf, r.n, r.err, (r.st, s.2 + 1)⟩

/-- A minimal HTTP response: recorded status code and accumulated body. -/
structure Response where
  status : Option Nat
  body : String
deriving DecidableEq, Repr

/-- Model of `ResponseWriter.WriteHeader`: records the status code on first use;
subsequent calls are ignored. -/
def Response.writeHeader (w : Response) (code : Nat) : Response :=
  if w.status = none then { w with status := some code } else w

/-- Model of `ResponseWriter.Write`: appends to the body. -/
def Response.write (w : Response) (s : String) : Response :=
  { w with body := w.body ++ s }

/-- Model of `http.Error(w, msg, code)` from the Go standard library: writes the
status code and then the message followed by a newline (`fmt.Fprintln`). -/
def httpError (w : Response) (msg : String) (code : Nat) : Response :=
  (w.writeHeader code).write (msg ++ "\n")

/-- A handler over an abstract request type `ρ`: transforms the response. -/
abbrev Handler (ρ : Type) := Response → ρ → Response

/-- Model of `HandlerFunc.WithAuth(authenticate)`: if the predicate rejects the
request, replies `http.Error(w, "Unauthorized", 401)` and does not invoke
the wrapped handler; otherwise delegates to it unchanged. -/
def HandlerFunc.WithAuth (f : Handler ρ) (authenticate : ρ → Bool) :
    Handler ρ :=
  fun w r =>
    if authenticate r then f w r else httpError w "Unauthorized" 401

/-- A sink that silently accepts zero bytes (an underwrite without error). -/
def underSink : WriteStep Unit := fun _ _ => ⟨0, none, ()⟩

/-- A fully succeeding sink whose state counts its invocations. -/
def countSink : WriteStep Nat := fun p c => ⟨p.length, none, c + 1⟩

/-- A reader that fills three bytes and reports a non-EOF failure. -/
def failRead : ReadStep Unit := fun _ _ => ⟨[1, 2, 3], 3, some (.msg "boom"), ()⟩

/-- A reader that fills two bytes and succeeds. -/
def okRead : ReadStep Unit := fun _ _ => ⟨[10, 20], 2, none, ()⟩

/-- A reader that writes one byte and reports EOF in the same call. -/
def eofRead : ReadStep Unit := fun p _ => ⟨9 :: p.drop 1, 1, some .eof, ()⟩

/-- A reader that writes one byte and succeeds. -/
def sevenRead : ReadStep Unit := fun p _ => ⟨7 :: p.drop 1, 1, none, ()⟩

/-- C1 counterexample: the first sink underwrites `[5]` without error, yet
the second sink is still invoked — its invocation counter moves from 0
to 1 — contradicting "the second sink is not invoked". -/
theorem writeCompose_second_invoked_cex :
    (underSink [5] ()).err = none ∧
    (underSink [5] ()).n < ([5] : Buf).length ∧
    (WriteFunc.Compose underSink countSink [5] ((), 0)).st.2 = 1 := by
  decide

/-- C1 (amended): `Compose` writes to the first sink and then,
unconditionally, to the second; a first-sink error is surfaced with the
first sink's count, else a second-sink error with the second's count, else
a first-sink underwrite as a short-write error with the first's count;
when the first fully succeeds and the second has no error, the result is
the second sink's count and status. -/
theorem writeCompose_sequencing (f : WriteStep α) (g : WriteStep β)
    (p : Buf) (s1 : α) (s2 : β) :
    (WriteFunc.Compose f g p (s1, s2)).st = ((f p s1).st, (g p s2).st)
    ∧ ((f p s1).err ≠ none →
        (WriteFunc.Compose f g p (s1, s2)).n = (f p s1).n ∧
        (WriteFunc.Compose f g p (s1, s2)).err = (f p s1).err)
    ∧ ((f p s1).err = none → (g p s2).err ≠ none →
        (WriteFunc.Compose f g p (s1, s2)).n = (g p s2).n ∧
        (WriteFunc.Compose f g p (s1, s2)).err = (g p s2).err)
    ∧ ((f p s1).err = none → (g p s2).err = none → (f p s1).n ≠ p.length →
        (WriteFunc.Compose f g p (s1, s2)).n = (f p s1).n ∧
        (WriteFunc.Compose f g p (s1, s2)).err = some .shortWrite)
    ∧ ((f p s1).err = none → (g p s2).err = none → (f p s1).n = p.length →
        (WriteFunc.Compose f g p (s1, s2)).n = (g p s2).n ∧
        (WriteFunc.Compose f g p (s1, s2)).err = (g p s2).err) := by
  by_cases h1 : (f p s1).err = none <;>
    by_cases h2 : (g p s2).err = none <;>
      by_cases h3 : (f p s1).n = p.length <;>
        simp [WriteFunc.Compose, h1, h2, h3]

/-- Witness for C1's amended theorem at a concrete underwriting input. -/
theorem writeCompose_sequencing_witness :
    (WriteFunc.Compose underSink countSink [5] ((), 0)).n = (underSink [5] ()).n ∧
    (WriteFunc.Compose underSink countSink [5] ((), 0)).err = some .shortWrite :=
  (writeCompose_sequencing underSink countSink [5] () 0).2.2.2.1
    (by decide) (by decide) (by decide)

/-- C2 counterexample: the underlying read fails (non-EOF error) yet
returns 3 bytes; the transform is nevertheless invoked — mapping with two
different transforms yields different results, so the outcome depends on
the transform despite the failure status. -/
theorem readMap_transform_on_failure_cex :
    IsFailure (failRead [0, 0, 0] ()).err ∧
    ReadFunc.Map failRead (fun l => l.map (fun b => b + 1)) [0, 0, 0] () ≠
      ReadFunc.Map failRead (fun l => l) [0, 0, 0] () := by
  decide

/-- C2 (amended): count, status and state always pass through `Map`
untouched; the transform is not invoked when the read returns zero bytes;
and for every length-preserving transform and every read with
`count ≤ buffer length` — failing or not — the first `count` bytes equal
the transform of the untransformed bytes and the rest of the buffer is
unchanged. -/
theorem readMap_behavior (f : ReadStep α) (t : Buf → Buf) (p : Buf) (s : α) :
    ((ReadFunc.Map f t p s).n = (f p s).n ∧
     (ReadFunc.Map f t p s).err = (f p s).err ∧
     (ReadFunc.Map f t p s).st = (f p s).st)
    ∧ ((f p s).n = 0 → ReadFunc.Map f t p s = f p s)
    ∧ (LenPres t → (f p s).n ≤ (f p s).buf.length →
        (ReadFunc.Map f t p s).buf.take (f p s).n =
          t ((f p s).buf.take (f p s).n) ∧
        (ReadFunc.Map f t p s).buf.drop (f p s).n =
          (f p s).buf.drop (f p s).n) := by
  refine ⟨?_, ?_, ?_⟩
  · unfold ReadFunc.Map
    by_cases h : 0 < (f p s).n <;> simp [h]
  · intro h0
    unfold ReadFunc.Map
    simp [h0]
  · intro ht hn
    by_cases h0 : 0 < (f p s).n
    · unfold ReadFunc.Map copyGo
      simp only [h0, if_pos]
      set n := (f p s).n with hdefn
      set b := (f p s).buf with hdefb
      set src := t (b.take n) with hdefsrc
      have hsrc : src.length = n := by
        rw [hdefsrc, ht]
        simp [List.length_take]
        omega
      rw [hsrc]
      have hmin : min n b.length = n := by omega
      rw [hmin]
      have h1 : src.take n = src := List.take_of_length_le (le_of_eq hsrc)
      rw [h1]
      exact ⟨List.take_left' hsrc, List.drop_left' hsrc⟩
    · have h0' : (f p s).n = 0 := by omega
      have ht0 : t [] = [] := List.length_eq_zero.mp (by rw [ht]; simp)
      unfold ReadFunc.Map
      simp [h0, h0', ht0]

/-- Witness for C2's amended theorem: a successful two-byte read mapped by
a length-preserving increment yields the transformed bytes. -/
theorem readMap_behavior_witness :
    (ReadFunc.Map okRead (fun l => l.map (fun b => b + 1)) [0, 0] ()).buf.take
        (okRead [0, 0] ()).n =
      (fun l => l.map (fun b => b + 1)) ((okRead [0, 0] ()).buf.take (okRead [0, 0] ()).n) ∧
    (ReadFunc.Map okRead (fun l => l.map (fun b => b + 1)) [0, 0] ()).buf.drop
        (okRead [0, 0] ()).n =
      (okRead [0, 0] ()).buf.drop (okRead [0, 0] ()).n :=
  (readMap_behavior okRead (fun l => l.map (fun b => b + 1)) [0, 0] ()).2.2
    (by intro x; simp) (by decide)

/-- C6: on sink `Map` and `Filter`, a successful delegated write reports
the original input length — never the transformed or filtered length —
and a failing delegated write has its count and error returned unchanged. -/
theorem writeMapFilter_counts (f : WriteStep α) (t : Buf → Buf)
    (pred : Nat → Bool) (p : Buf) (s : α) :
    ((f (t p) s).err = none →
      WriteFunc.Map f t p s = ⟨p.length, none, (f (t p) s).st⟩)
    ∧ ((f (t p) s).err ≠ none → WriteFunc.Map f t p s = f (t p) s)
    ∧ ((f (p.filter pred) s).err = none →
      WriteFunc.Filter f pred p s = ⟨p.length, none, (f (p.filter pred) s).st⟩)
    ∧ ((f (p.filter pred) s).err ≠ none →
      WriteFunc.Filter f pred p s = f (p.filter pred) s) := by
  refine ⟨?_, ?_, ?_, ?_⟩ <;> intro h <;>
    simp [WriteFunc.Map, WriteFunc.Filter, h]

/-- Witness for C6: a length-doubling transform over a sink that accepts
zero bytes still reports the original length 2 as written. -/
theorem writeMapFilter_counts_witness :
    WriteFunc.Map underSink (fun l => l ++ l) [1, 2] () =
      ⟨([1, 2] : Buf).length, none, (underSink ((fun l => l ++ l) [1, 2]) ()).st⟩ :=
  (writeMapFilter_counts underSink (fun l => l ++ l) (fun _ => true) [1, 2] ()).1
    (by decide)

/-- C8: `WithAuth` on rejection replies with the standard library's
`http.Error(w, "Unauthorized", 401)` — status 401 on a fresh response and
body the fixed text `Unauthorized` (newline-terminated, as `http.Error`
prints a line) — without invoking the wrapped handler (the outcome is
independent of it); on acceptance it delegates to the wrapped handler
unchanged, adding no behavior. -/
theorem withAuth_behavior (f : Handler ρ) (auth : ρ → Bool)
    (w : Response) (r : ρ) :
    (auth r = false →
      HandlerFunc.WithAuth f auth w r = httpError w "Unauthorized" 401
      ∧ (∀ g : Handler ρ,
          HandlerFunc.WithAuth g auth w r = HandlerFunc.WithAuth f auth w r)
      ∧ (w.status = none →
          (HandlerFunc.WithAuth f auth w r).status = some 401
          ∧ (HandlerFunc.WithAuth f auth w r).body = w.body ++ "Unauthorized\n"))
    ∧ (auth r = true → HandlerFunc.WithAuth f auth w r = f w r) := by
  constructor
  · intro hrej
    refine ⟨by simp [HandlerFunc.WithAuth, hrej], ?_, ?_⟩
    · intro g
      simp [HandlerFunc.WithAuth, hrej]
    · intro hfresh
      simp [HandlerFunc.WithAuth, hrej, httpError, Response.writeHeader,
        Response.write, hfresh]
  · intro hacc
    simp [HandlerFunc.WithAuth, hacc]

/-- Witness for C8 at a concrete rejected request (`Bool` requests,
predicate = identity): fresh response receives 401 / "Unauthorized". -/
theorem withAuth_behavior_witness :
    HandlerFunc.WithAuth (fun w (_ : Bool) => w.write "ok") (fun b => b)
        ⟨none, ""⟩ false = httpError ⟨none, ""⟩ "Unauthorized" 401
    ∧ (HandlerFunc.WithAuth (fun w (_ : Bool) => w.write "ok") (fun b => b)
        ⟨none, ""⟩ false).status = some 401
    ∧ (HandlerFunc.WithAuth (fun w (_ : Bool) => w.write "ok") (fun b => b)
        ⟨none, ""⟩ false).body = ("" : String) ++ "Unauthorized\n" := by
  have h := (withAuth_behavior (fun w (_ : Bool) => w.write "ok") (fun b => b)
    ⟨none, ""⟩ false).1 rfl
  exact ⟨h.1, (h.2.2 rfl).1, (h.2.2 rfl).2⟩

/-- C10: when the first reader returns `n > 0` bytes together with EOF in
one call, the composed reader marks it exhausted, immediately invokes
`next` on the same buffer, and returns `next`'s buffer, count and status —
the first reader's final partial read is never delivered. -/
theorem readCompose_discards_final_partial (f : ReadStep α) (g : ReadStep β)
    (p : Buf) (s1 : α) (s2 : β)
    (heof : (f p s1).err = some .eof) (_hn : 0 < (f p s1).n) :
    ReadFunc.Compose f g p (false, s1, s2) =
      ⟨(g (f p s1).buf s2).buf, (g (f p s1).buf s2).n, (g (f p s1).buf s2).err,
        (true, (f p s1).st, (g (f p s1).buf s2).st)⟩ := by
  simp [ReadFunc.Compose, heof]

/-- Witness for C10: a one-byte-then-EOF reader composed with a succeeding
reader; the composed call returns the second reader's result. -/
theorem readCompose_discards_final_partial_witness :
    ReadFunc.Compose eofRead sevenRead [0, 0] (false, (), ()) =
      ⟨(sevenRead (eofRead [0, 0] ()).buf ()).buf,
        (sevenRead (eofRead [0, 0] ()).buf ()).n,
        (sevenRead (eofRead [0, 0] ()).buf ()).err,
        (true, (eofRead [0, 0] ()).st, (sevenRead (eofRead [0, 0] ()).buf ()).st)⟩ :=
  readCompose_discards_final_partial eofRead sevenRead [0, 0] () ()
    (by decide) (by decide)

/-- Composing the empty reader in front of `g` behaves, over every call
sequence, exactly like `g`: same outputs and same wrapped state, for any
initial value of the `exhausted` flag. -/
theorem composeEmpty_runs (g : ReadStep β) (bufs : List Buf) (ex : Bool) (s : β) :
    (runReads (ReadFunc.Compose ReadFunc.Empty g) bufs (ex, (), s)).1 =
      (runReads g bufs s).1 ∧
    (runReads (ReadFunc.Compose ReadFunc.Empty g) bufs (ex, (), s)).2.2.2 =
      (runReads g bufs s).2 := by
  induction bufs generalizing ex s with
  | nil => simp [runReads]
  | cons p ps ih =>
    cases ex <;>
      simp [runReads, ReadFunc.Compose, ReadFunc.Empty] <;>
        exact ih true (g p s).st

/-- C7: identity laws — `compose(empty(), X)` behaves identically to `X`
for the stringer adapter (same produced string), the sink adapter (same
count, error, and sink state on every write), and the source adapter
(same outputs and same wrapped state over every sequence of reads). -/
theorem compose_empty_identity :
    (∀ x : StringerF, StringerFunc.Compose StringerFunc.Empty x = x)
    ∧ (∀ (β : Type) (g : WriteStep β) (p : Buf) (s : β),
        (WriteFunc.Compose WriteFunc.Empty g p ((), s)).n = (g p s).n ∧
        (WriteFunc.Compose WriteFunc.Empty g p ((), s)).err = (g p s).err ∧
        (WriteFunc.Compose WriteFunc.Empty g p ((), s)).st = ((), (g p s).st))
    ∧ (∀ (β : Type) (g : ReadStep β) (bufs : List Buf) (s : β),
        (runReads (ReadFunc.Compose ReadFunc.Empty g) bufs (false, (), s)).1 =
          (runReads g bufs s).1 ∧
        (runReads (ReadFunc.Compose ReadFunc.Empty g) bufs (false, (), s)).2.2.2 =
          (runReads g bufs s).2) := by
  refine ⟨?_, ?_, ?_⟩
  · intro x
    funext u
    cases u
    show "" ++ x () = x ()
    simp
  · intro β g p s
    by_cases h : (g p s).err = none <;>
      simp [WriteFunc.Compose, WriteFunc.Empty, h]
  · intro β g bufs s
    exact composeEmpty_runs g bufs false s

/-- With no budget left, `Take` returns `(0, io.EOF)` with the buffer and
the whole state untouched, whatever the wrapped reader is. -/
theorem take_idle (g : ReadStep α) (p : Buf) (st : Int × α) (h : st.1 ≤ 0) :
    ReadFunc.Take g p st = ⟨p, 0, some .eof, st⟩ := by
  simp [ReadFunc.Take, h]

/-- One `Take` step under the reader contract: starting from a
non-negative budget, the budget stays non-negative and decreases by
exactly the returned count. -/
theorem take_step (f : ReadStep α) (hc : ReadContract f) (p : Buf)
    (rem : Int) (s : α) (hrem : 0 ≤ rem) :
    0 ≤ (ReadFunc.Take f p (rem, s)).st.1 ∧
    ((ReadFunc.Take f p (rem, s)).n : Int) =
      rem - (ReadFunc.Take f p (rem, s)).st.1 := by
  by_cases h : rem ≤ 0
  · simp [ReadFunc.Take, h]
    omega
  · have hq : ∀ q : Buf, (q.length : Int) ≤ rem → (f q s).n ≤ q.length →
        0 ≤ rem - ((f q s).n : Int) ∧
        ((f q s).n : Int) = rem - (rem - ((f q s).n : Int)) := by
      intro q h1 h2
      constructor <;> push_cast at * <;> omega
    simp only [ReadFunc.Take, if_neg h]
    apply hq
    · by_cases hpl : (p.length : Int) > rem
      · simp [hpl, List.length_take]
        omega
      · simp [hpl]
        omega
    · exact hc _ s

/-- Running any buffer sequence through `Take` under the reader contract:
the budget stays non-negative, and the total of the returned counts equals
the initial budget minus the final budget. -/
theorem take_run (f : ReadStep α) (hc : ReadContract f) (bufs : List Buf) :
    ∀ (rem : Int) (s : α), 0 ≤ rem →
    0 ≤ (runReads (ReadFunc.Take f) bufs (rem, s)).2.1 ∧
    (totalBytes (runReads (ReadFunc.Take f) bufs (rem, s)).1 : Int) =
      rem - (runReads (ReadFunc.Take f) bufs (rem, s)).2.1 := by
  induction bufs with
  | nil =>
    intro rem s h
    simp [runReads, totalBytes]
    omega
  | cons p ps ih =>
    intro rem s h
    have hstep := take_step f hc p rem s h
    have hih := ih (ReadFunc.Take f p (rem, s)).st.1
      (ReadFunc.Take f p (rem, s)).st.2 hstep.1
    simp only [Prod.mk.eta] at hih
    simp only [runReads, totalBytes, List.map_cons, List.sum_cons]
    simp only [totalBytes] at hih
    push_cast at *
    omega

/-- C3: for a wrapped source obeying the contract and a non-negative
limit, the total bytes returned over any sequence of reads from one
`Take`-composed adapter never exceeds the limit; and once the cumulative
total equals the limit, any further read — with any wrapped reader in
place — returns `(0, io.EOF)` with buffer and state untouched, so the
wrapped source is not invoked. -/
theorem take_budget (f : ReadStep α) (hc : ReadContract f) (limit : Int)
    (hl : 0 ≤ limit) (bufs : List Buf) (s : α) :
    (totalBytes (runReads (ReadFunc.Take f) bufs (limit, s)).1 : Int) ≤ limit
    ∧ ((totalBytes (runReads (ReadFunc.Take f) bufs (limit, s)).1 : Int) = limit →
        ∀ (p : Buf) (g : ReadStep α),
          ReadFunc.Take g p (runReads (ReadFunc.Take f) bufs (limit, s)).2 =
            ⟨p, 0, some .eof, (runReads (ReadFunc.Take f) bufs (limit, s)).2⟩) := by
  obtain ⟨hpos, htot⟩ := take_run f hc bufs limit s hl
  constructor
  · omega
  · intro heq p g
    exact take_idle g p _ (by omega)

/-- A contract-obeying reader that returns at most one byte per call. -/
def oneRead : ReadStep Unit := fun p _ => ⟨p, min p.length 1, none, ()⟩

/-- Witness for C3 with a one-byte-per-call source and limit 2: after the
budget is consumed, a further read returns `(0, io.EOF)` untouched. -/
theorem take_budget_witness :
    (totalBytes (runReads (ReadFunc.Take oneRead) [[7, 7], [7], [7]] (2, ())).1 : Int) ≤ 2
    ∧ ReadFunc.Take oneRead [9]
        (runReads (ReadFunc.Take oneRead) [[7, 7], [7], [7]] (2, ())).2 =
      ⟨[9], 0, some .eof,
        (runReads (ReadFunc.Take oneRead) [[7, 7], [7], [7]] (2, ())).2⟩ := by
  have h := take_budget oneRead (by intro p s; simp [oneRead]) 2 (by decide)
    [[7, 7], [7], [7]] ()
  exact ⟨h.1, h.2 (by decide) [9] oneRead⟩

/-- A non-failure result (nil or EOF) is returned by the retry loop as is,
with any remaining fuel. -/
theorem retryLoop_success (f : ReadStep α) (fuel : Nat) (le : Option GoError)
    (p : Buf) (s : α) (h : ¬ IsFailure (f p s).err) :
    retryLoop f (fuel + 1) le p s = f p s := by
  have hcond : (f p s).err = none ∨ (f p s).err = some .eof := by
    unfold IsFailure at h
    tauto
  simp [retryLoop, hcond]

/-- If the first `k` calls fail and the `(k+1)`-th does not, the retry
loop with fuel `k+1` returns the `(k+1)`-th call's result. -/
theorem retryLoop_fails_then (f : ReadStep α) (k : Nat) :
    ∀ (le : Option GoError) (p : Buf) (s : α), FailsFirst f k p s →
      ¬ IsFailure (callAt f k p s).err →
      retryLoop f (k + 1) le p s = callAt f k p s := by
  induction k with
  | zero =>
    intro le p s _ hs
    exact retryLoop_success f 0 le p s hs
  | succ k ih =>
    intro le p s hfail hs
    obtain ⟨h1, h2⟩ := hfail
    have hcond : ¬ ((f p s).err = none ∨ (f p s).err = some .eof) := by
      unfold IsFailure at h1
      tauto
    show retryLoop f (k + 1 + 1) le p s = callAt f (k + 1) p s
    simp only [retryLoop, if_neg hcond]
    exact ih (f p s).err (f p s).buf (f p s).st h2 hs

/-- If all `k+1` calls fail, the retry loop with fuel `k+1` returns count
0 together with the last call's error, buffer and state. -/
theorem retryLoop_all_fail (f : ReadStep α) (k : Nat) :
    ∀ (le : Option GoError) (p : Buf) (s : α), FailsFirst f (k + 1) p s →
      retryLoop f (k + 1) le p s =
        ⟨(callAt f k p s).buf, 0, (callAt f k p s).err, (callAt f k p s).st⟩ := by
  induction k with
  | zero =>
    intro le p s hfail
    obtain ⟨h1, _⟩ := hfail
    have hcond : ¬ ((f p s).err = none ∨ (f p s).err = some .eof) := by
      unfold IsFailure at h1
      tauto
    simp only [retryLoop, if_neg hcond]
    rfl
  | succ k ih =>
    intro le p s hfail
    obtain ⟨h1, h2⟩ := hfail
    have hcond : ¬ ((f p s).err = none ∨ (f p s).err = some .eof) := by
      unfold IsFailure at h1
      tauto
    show retryLoop f (k + 1 + 1) le p s = _
    simp only [retryLoop, if_neg hcond]
    exact ih (f p s).err (f p s).buf (f p s).st h2

/-- Repeated calls of the counting instrumentation advance the counter by
exactly the number of calls. -/
theorem counting_callAt (f : ReadStep α) (k : Nat) :
    ∀ (p : Buf) (s : α) (c : Nat),
      callAt (counting f) k p (s, c) =
        ⟨(callAt f k p s).buf, (callAt f k p s).n, (callAt f k p s).err,
          ((callAt f k p s).st, c + k + 1)⟩ := by
  induction k with
  | zero =>
    intro p s c
    rfl
  | succ k ih =>
    intro p s c
    show callAt (counting f) k (f p s).buf ((f p s).st, c + 1) = _
    rw [ih]
    have h1 : callAt f (k + 1) p s = callAt f k (f p s).buf (f p s).st := rfl
    rw [h1]
    have h2 : c + 1 + k + 1 = c + (k + 1) + 1 := by omega
    rw [h2]

/-- The counting instrumentation fails exactly when the wrapped reader
fails. -/
theorem counting_failsFirst (f : ReadStep α) (k : Nat) :
    ∀ (p : Buf) (s : α) (c : Nat),
      FailsFirst (counting f) k p (s, c) ↔ FailsFirst f k p s := by
  induction k with
  | zero =>
    intro p s c
    simp [FailsFirst]
  | succ k ih =>
    intro p s c
    show IsFailure (f p s).err ∧ FailsFirst (counting f) k (f p s).buf ((f p s).st, _) ↔ _
    rw [ih]
    rfl

/-- C4: `Retry(k)` on an instrumented source that fails exactly `k` times
then succeeds returns the success result after exactly `k+1` underlying
invocations; on a source whose first `k+1` calls all fail it performs
exactly `k+1` invocations and returns the last failure with count 0; and
a nil or EOF result is never retried — one invocation, returned as is. -/
theorem retry_spec (f : ReadStep α) (k : Nat) (p : Buf) (s : α) (c : Nat) :
    (FailsFirst f k p s → ¬ IsFailure (callAt f k p s).err →
      ReadFunc.Retry (counting f) k p (s, c) =
        ⟨(callAt f k p s).buf, (callAt f k p s).n, (callAt f k p s).err,
          ((callAt f k p s).st, c + (k + 1))⟩)
    ∧ (FailsFirst f (k + 1) p s →
      ReadFunc.Retry (counting f) k p (s, c) =
        ⟨(callAt f k p s).buf, 0, (callAt f k p s).err,
          ((callAt f k p s).st, c + (k + 1))⟩)
    ∧ (∀ m : Nat, ¬ IsFailure (f p s).err →
      ReadFunc.Retry (counting f) m p (s, c) =
        ⟨(f p s).buf, (f p s).n, (f p s).err, ((f p s).st, c + 1)⟩) := by
  refine ⟨?_, ?_, ?_⟩
  · intro hfail hs
    have hf' := (counting_failsFirst f k p s c).mpr hfail
    have hs' : ¬ IsFailure (callAt (counting f) k p (s, c)).err := by
      rw [counting_callAt]
      exact hs
    have := retryLoop_fails_then (counting f) k none p (s, c) hf' hs'
    rw [ReadFunc.Retry, this, counting_callAt]
    have : c + k + 1 = c + (k + 1) := by omega
    rw [this]
  · intro hfail
    have hf' := (counting_failsFirst f (k + 1) p s c).mpr hfail
    have := retryLoop_all_fail (counting f) k none p (s, c) hf'
    rw [ReadFunc.Retry, this, counting_callAt]
    have : c + k + 1 = c + (k + 1) := by omega
    rw [this]
  · intro m hs
    have hs' : ¬ IsFailure ((counting f) p (s, c)).err := hs
    exact retryLoop_success (counting f) m none p (s, c) hs'

/-- A stateful source that fails on its first two calls, then delivers one
byte successfully; the state counts its own calls. -/
def flaky : ReadStep Nat :=
  fun p c => if c < 2 then ⟨p, 0, some (.msg "E"), c + 1⟩
             else ⟨7 :: p.drop 1, 1, none, c + 1⟩

/-- Witness for C4: `flaky` fails exactly twice; `Retry(2)` returns its
third call's success and the invocation counter lands on 3. -/
theorem retry_spec_witness :
    ReadFunc.Retry (counting flaky) 2 [0] (0, 0) =
      ⟨(callAt flaky 2 [0] 0).buf, (callAt flaky 2 [0] 0).n,
        (callAt flaky 2 [0] 0).err, ((callAt flaky 2 [0] 0).st, 0 + (2 + 1))⟩ :=
  (retry_spec flaky 2 [0] 0 0).1 (by decide) (by decide)

/-- All listed sinks, from their listed states, fully accept `p` with no
error. -/
def FullSuccess (p : Buf) : List (WriteStep α) → List α → Prop
  | [], [] => True
  | w :: ws, s :: ss =>
    (w p s).n = p.length ∧ (w p s).err = none ∧ FullSuccess p ws ss
  | _, _ => False

/-- Decidability of `FullSuccess`, so concrete witnesses evaluate. -/
def decFullSuccess (p : Buf) :
    (ws : List (WriteStep α)) → (ss : List α) → Decidable (FullSuccess p ws ss)
  | [], [] => .isTrue trivial
  | [], _ :: _ => .isFalse fun h => h
  | _ :: _, [] => .isFalse fun h => h
  | w :: ws, s :: ss =>
    haveI := decFullSuccess p ws ss
    show Decidable ((w p s).n = p.length ∧ (w p s).err = none ∧ FullSuccess p ws ss)
      from inferInstance

instance (p : Buf) (ws : List (WriteStep α)) (ss : List α) :
    Decidable (FullSuccess p ws ss) := decFullSuccess p ws ss

/-- The states of the listed sinks after each has written `p` once from
its listed state. -/
def advance (p : Buf) : List (WriteStep α) → List α → List α
  | w :: ws, s :: ss => (w p s).st :: advance p ws ss
  | _, _ => []

/-- Unfolding of `teeGo` on an empty sink list. -/
theorem teeGo_nil (p : Buf) (ss : List α) :
    teeGo ([] : List (WriteStep α)) p ss = ⟨p.length, none, ss⟩ := rfl

/-- Unfolding of `teeGo` on a leading sink. -/
theorem teeGo_cons (w : WriteStep α) (ws : List (WriteStep α)) (p : Buf)
    (s : α) (ss : List α) :
    teeGo (w :: ws) p (s :: ss) =
      if (w p s).err ≠ none then ⟨(w p s).n, (w p s).err, (w p s).st :: ss⟩
      else if (w p s).n ≠ p.length then
        ⟨(w p s).n, some .shortWrite, (w p s).st :: ss⟩
      else ⟨(teeGo ws p ss).n, (teeGo ws p ss).err,
        (w p s).st :: (teeGo ws p ss).st⟩ := rfl

/-- Unfolding of `advance` on a leading sink. -/
theorem advance_cons (w : WriteStep α) (ws : List (WriteStep α)) (p : Buf)
    (s : α) (ss : List α) :
    advance p (w :: ws) (s :: ss) = (w p s).st :: advance p ws ss := rfl

/-- When every sink fully succeeds, the tee loop reports the full buffer
length with no error and every sink's state advances by its own write of
`p`. -/
theorem teeGo_success (p : Buf) :
    ∀ (ws : List (WriteStep α)) (ss : List α), FullSuccess p ws ss →
      teeGo ws p ss = ⟨p.length, none, advance p ws ss⟩ := by
  intro ws
  induction ws with
  | nil =>
    intro ss h
    cases ss with
    | nil => rfl
    | cons s ss => exact h.elim
  | cons w ws ih =>
    intro ss h
    cases ss with
    | nil => exact h.elim
    | cons s ss =>
      obtain ⟨hn, he, hrest⟩ := h
      rw [teeGo_cons, advance_cons]
      simp [he, hn, ih ss hrest]

/-- Fail-fast: after a prefix of fully succeeding sinks, the first sink
that errors (or underwrites without error) determines the result, and the
states of all later sinks are untouched. -/
theorem teeGo_failfast (p : Buf) :
    ∀ (ws₁ : List (WriteStep α)) (ss₁ : List α) (w : WriteStep α) (s : α)
      (ws₂ : List (WriteStep α)) (ss₂ : List α),
      FullSuccess p ws₁ ss₁ →
      (((w p s).err ≠ none →
        teeGo (ws₁ ++ w :: ws₂) p (ss₁ ++ s :: ss₂) =
          ⟨(w p s).n, (w p s).err, advance p ws₁ ss₁ ++ (w p s).st :: ss₂⟩)
      ∧ ((w p s).err = none → (w p s).n ≠ p.length →
        teeGo (ws₁ ++ w :: ws₂) p (ss₁ ++ s :: ss₂) =
          ⟨(w p s).n, some .shortWrite,
            advance p ws₁ ss₁ ++ (w p s).st :: ss₂⟩)) := by
  intro ws₁
  induction ws₁ with
  | nil =>
    intro ss₁ w s ws₂ ss₂ hfs
    cases ss₁ with
    | nil =>
      constructor
      · intro he
        simp only [List.nil_append, teeGo_cons, if_pos he]
        rfl
      · intro he hn
        simp only [List.nil_append, teeGo_cons]
        rw [if_neg (by simp [he]), if_pos hn]
        rfl
    | cons s1 ss1 => exact hfs.elim
  | cons w1 ws1 ih =>
    intro ss₁ w s ws₂ ss₂ hfs
    cases ss₁ with
    | nil => exact hfs.elim
    | cons s1 ss1 =>
      obtain ⟨hn1, he1, hrest⟩ := hfs
      have hih := ih ss1 w s ws₂ ss₂ hrest
      constructor
      · intro he
        simp only [List.cons_append, teeGo_cons, advance_cons]
        rw [if_neg (by simp [he1]), if_neg (by simp [hn1]), hih.1 he]
      · intro he hn
        simp only [List.cons_append, teeGo_cons, advance_cons]
        rw [if_neg (by simp [he1]), if_neg (by simp [hn1]), hih.2 he hn]

/-- C5: `Tee` writes the identical buffer to the original sink and every
additional sink in order.  If every sink fully succeeds, it reports the
full buffer length with no error and every sink's state reflects exactly
one write of the same buffer `p`.  The first sink (in order) that errors
or underwrites determines the result immediately — its error (or a
synthesized short-write error) with its count — and the states of all
later sinks are untouched, i.e. they are not invoked. -/
theorem tee_spec (f : WriteStep α) (others : List (WriteStep α)) (p : Buf)
    (s0 : α) (ss : List α) :
    (FullSuccess p (f :: others) (s0 :: ss) →
      WriteFunc.Tee f others p (s0 :: ss) =
        ⟨p.length, none, advance p (f :: others) (s0 :: ss)⟩)
    ∧ (∀ (ws₁ : List (WriteStep α)) (ss₁ : List α) (w : WriteStep α) (s : α)
        (ws₂ : List (WriteStep α)) (ss₂ : List α),
        f :: others = ws₁ ++ w :: ws₂ → s0 :: ss = ss₁ ++ s :: ss₂ →
        FullSuccess p ws₁ ss₁ →
        (((w p s).err ≠ none →
          WriteFunc.Tee f others p (s0 :: ss) =
            ⟨(w p s).n, (w p s).err, advance p ws₁ ss₁ ++ (w p s).st :: ss₂⟩)
        ∧ ((w p s).err = none → (w p s).n ≠ p.length →
          WriteFunc.Tee f others p (s0 :: ss) =
            ⟨(w p s).n, some .shortWrite,
              advance p ws₁ ss₁ ++ (w p s).st :: ss₂⟩))) := by
  constructor
  · intro hfs
    exact teeGo_success p (f :: others) (s0 :: ss) hfs
  · intro ws₁ ss₁ w s ws₂ ss₂ hw hs hfs
    have := teeGo_failfast p ws₁ ss₁ w s ws₂ ss₂ hfs
    rw [WriteFunc.Tee, hw, hs]
    exact this

/-- A fully succeeding sink whose state logs every buffer it receives. -/
def logSink : WriteStep (List Buf) := fun p log => ⟨p.length, none, log ++ [p]⟩

/-- Witness for C5: a tee of three logging sinks over `[1, 2, 3]` reports
`(3, nil)` and every sink's log advances by that same buffer. -/
theorem tee_spec_witness :
    WriteFunc.Tee logSink [logSink, logSink] [1, 2, 3] [[], [], []] =
      ⟨([1, 2, 3] : Buf).length, none,
        advance [1, 2, 3] (logSink :: [logSink, logSink]) [[], [], []]⟩ :=
  (tee_spec logSink [logSink, logSink] [1, 2, 3] [] [[], []]).1 (by decide)

end PureFuncCore
